import Mathlib

/- Verification development for src/adb/client/incremental_server.cpp
   (namespace incremental of the adb host tools).

   The embedding is shallow: machine integers are modeled as Int with explicit
   two's-complement truncation where the source narrows; the input file behind
   each fd is a byte list; the adb socket is an explicit trace of poll/read
   events; fprintf/adb trace logging is not modeled (it has no protocol
   effect); the output_fd log sink and the adb_fd outbound wire are byte
   lists.  An operation whose C++ source has undefined behaviour on the given
   arguments (an out-of-bounds std::vector access) is modeled as `none`. -/

namespace Incremental

/-- Constant kBlockSize of the source: 4096. -/
def kBlockSize : Nat := 4096

/-- Constant kCompressedSizeMax = kBlockSize * 0.95 truncated to int, i.e. 3891. -/
def kCompressedSizeMax : Int := 3891

/-- Constant kCompressBound = max(kBlockSize, LZ4_COMPRESSBOUND(kBlockSize));
    LZ4_COMPRESSBOUND(n) = n + n/255 + 16, so this is max 4096 4128 = 4128. -/
def kCompressBound : Nat := max 4096 (4096 + 4096 / 255 + 16)

/-- Constant kReadBufferSize = 128 * 1024. -/
def kReadBufferSize : Nat := 128 * 1024

/-- Constant kChunkFlushSize = 31 * kBlockSize, local to IncrementalServer::Send. -/
def kChunkFlushSize : Nat := 31 * kBlockSize

/-- Two's-complement narrowing of an integer to int16_t
    (the effect of assigning a wider integer to an int16_t). -/
def toInt16 (n : Int) : Int := (n + 32768) % 65536 - 32768

/-- Two's-complement narrowing of an integer to int32_t. -/
def toInt32 (n : Int) : Int := (n + 2147483648) % 4294967296 - 2147483648

/-- Big-endian byte serialization of a 16-bit value (toBigEndian<int16_t>). -/
def be16 (i : Int) : List Nat :=
  let v := (i % 65536).toNat
  [v / 256, v % 256]

/-- Big-endian byte serialization of a 32-bit value (toBigEndian<int32_t>). -/
def be32 (i : Int) : List Nat :=
  let v := (i % 4294967296).toNat
  [v / 16777216 % 256, v / 65536 % 256, v / 256 % 256, v % 256]

/-- Byte serialization of a ResponseHeader (packed struct: file_id : i16,
    compression_type : i16, block_idx : i32, block_size : i16, all big-endian). -/
def encodeHeader (fileId compression blockIdx blockSize : Int) : List Nat :=
  be16 fileId ++ be16 compression ++ be32 blockIdx ++ be16 blockSize

/-- Class File of the source.  `content` stands for the bytes of the regular
    file behind fd_, so the File::size field is content.length.  sentBlocks and
    sentBlocksCount are the streaming state. -/
structure File where
  content : List Nat
  sentBlocks : List Bool
  sentBlocksCount : Int
  deriving DecidableEq

/-- numBytesToNumBlocks for a non-negative byte count:
    roundUpToBlockOffset(bytes) / kBlockSize = (bytes + 4095) / 4096. -/
def numBytesToNumBlocks (bytes : Nat) : Nat := (bytes + (kBlockSize - 1)) / kBlockSize

/-- File construction as done by serve(): a fresh sent bitmap of
    numBytesToNumBlocks(size) bits, all false. -/
def mkFile (content : List Nat) : File :=
  { content := content
    sentBlocks := List.replicate (numBytesToNumBlocks content.length) false
    sentBlocksCount := 0 }

/-- IncrementalServer::PrefetchState.  The source stores a File*; serve()
    builds the file table with id i at position i, so the table index equals
    the id and we store it directly. -/
structure PrefetchState where
  fileId : Int
  overallIndex : Int
  overallEnd : Int
  deriving DecidableEq

/-- PrefetchState(const File& f): whole file, overallIndex = 0,
    overallEnd = f.sentBlocks.size(). -/
def PrefetchState.whole (fid : Int) (blocks : Nat) : PrefetchState :=
  ⟨fid, 0, (blocks : Int)⟩

/-- PrefetchState(const File& f, BlockIdx start, int count):
    overallEnd = min(start + count, f.sentBlocks.size()). -/
def PrefetchState.ranged (fid : Int) (start count : Int) (blocks : Nat) : PrefetchState :=
  ⟨fid, start, min (start + count) (blocks : Int)⟩

/-- PrefetchState::done(). -/
def PrefetchState.done (p : PrefetchState) : Prop := p.overallEnd ≤ p.overallIndex

instance (p : PrefetchState) : Decidable p.done := by unfold PrefetchState.done; infer_instance

/-- Observation record: the decoded ResponseHeader fields of one response
    handed to Send, kept as ghost history so that properties of the emitted
    record stream can be stated. -/
structure Rec where
  fileId : Int
  compression : Int
  blockIdx : Int
  blockSize : Int
  deriving DecidableEq

/-- Decoded RequestCommand (after readBigEndian): request_type, file_id and
    the 4-byte payload (block_idx / num_blocks union). -/
structure RequestCommand where
  requestType : Int
  fileId : Int
  blockIdx : Int
  deriving DecidableEq

/-- The full state of an IncrementalServer plus its two fds: `wire` is
    everything written to adb_fd_ after the handshake, `logSink` everything
    written to output_fd_, `records` the ghost record history. -/
structure ServerState where
  files : List File
  buffer : List Nat
  logSink : List Nat
  prefetches : List PrefetchState
  pendingBlocks : List Nat
  wire : List Nat
  records : List Rec
  servingComplete : Bool
  doneSent : Bool
  prefetchedFiles : List Int
  missesCount : Int
  missesSent : Int
  compressedCount : Int
  uncompressedCount : Int
  sentSize : Int
  deriving DecidableEq

/-- The file table entry at a (validated) index. -/
def fileAt (s : ServerState) (fid : Int) : File :=
  s.files.getD fid.toNat ⟨[], [], 0⟩

/-- File::ReadBlock: adb_pread of kBlockSize bytes at offset blockIdx * kBlockSize;
    for a regular file this returns the bytes present there. -/
def readBlockRaw (f : File) (bi : Nat) : List Nat :=
  (f.content.drop (bi * kBlockSize)).take kBlockSize

/-- IncrementalServer::Flush: if pendingBlocks_ is nonempty, overwrite its
    first 4 bytes with the big-endian payload length, write the whole buffer
    to adb_fd_, account sentSize_ and clear the buffer. -/
def Flush (s : ServerState) : ServerState :=
  if s.pendingBlocks.isEmpty then s
  else
    let bytes := be32 ((s.pendingBlocks.length : Int) - 4) ++ s.pendingBlocks.drop 4
    { s with wire := s.wire ++ bytes
             sentSize := s.sentSize + (s.pendingBlocks.length : Int)
             pendingBlocks := [] }

/-- IncrementalServer::Send: lazily reserve the 4-byte ChunkHeader
    placeholder, append the data, and flush when asked to or when the buffer
    exceeds kChunkFlushSize bytes. -/
def Send (s : ServerState) (data : List Nat) (flush : Bool) : ServerState :=
  let pb := (if s.pendingBlocks.isEmpty then List.replicate 4 0 else s.pendingBlocks) ++ data
  let s' := { s with pendingBlocks := pb }
  if flush = true ∨ kChunkFlushSize < pb.length then Flush s' else s'

/-- Hand one response record to Send, recording its decoded header fields as
    ghost history. -/
def sendRecord (s : ServerState) (r : Rec) (bytes : List Nat) (flush : Bool) : ServerState :=
  Send { s with records := s.records ++ [r] } bytes flush

/-- IncrementalServer::SendResult. -/
inductive SendResult where
  | sent
  | skipped
  | error
  deriving DecidableEq

/-- IncrementalServer::SendBlock.  files_[fileId] is an unchecked access that
    every call site keeps in range, so an out-of-range id is undefined
    behaviour (`none`); likewise the source checks only
    blockIdx >= sentBlocks.size() before indexing the bitmap, so a negative
    blockIdx reaches std::vector<bool>::operator[] out of bounds (`none`).
    The isZipCompressed hook of File::ReadBlock is never set by this source,
    so LZ4 always runs; the compressor is a parameter `lz4` returning the
    bytes it wrote (LZ4_compress_default's int result is their count, 0 on
    failure), and adb_pread on the regular file cannot fail. -/
def SendBlock (lz4 : List Nat → List Nat) (s : ServerState) (fileId blockIdx : Int)
    (flush : Bool) : Option (SendResult × ServerState) :=
  if 0 ≤ fileId ∧ fileId < (s.files.length : Int) then
    let file := fileAt s fileId
    if (file.sentBlocks.length : Int) ≤ blockIdx then some (.error, s)
    else if blockIdx < 0 then none
    else
      let bi := blockIdx.toNat
      if file.sentBlocks.getD bi false = true then some (.skipped, s)
      else
        let raw := readBlockRaw file bi
        let bytesRead := raw.length
        let compressedSize := toInt16 ((lz4 raw).length : Int)
        let useCompressed := 0 < compressedSize ∧ compressedSize < kCompressedSizeMax
        let compression : Int := if useCompressed then 1 else 0
        let blockSize : Int := if useCompressed then compressedSize else toInt16 (bytesRead : Int)
        let payload := if useCompressed then lz4 raw else raw
        let file' := { file with sentBlocks := file.sentBlocks.set bi true
                                 sentBlocksCount := file.sentBlocksCount + 1 }
        let s1 := { s with files := s.files.set fileId.toNat file'
                           compressedCount :=
                             if useCompressed then s.compressedCount + 1 else s.compressedCount
                           uncompressedCount :=
                             if useCompressed then s.uncompressedCount else s.uncompressedCount + 1 }
        let s2 := sendRecord s1 ⟨fileId, compression, blockIdx, blockSize⟩
                    (encodeHeader fileId compression blockIdx blockSize ++ payload) flush
        some (.sent, s2)
  else none

/-- IncrementalServer::SendDone: one ResponseHeader with file_id = -1,
    compression 0, block_idx 0, block_size 0, flushed immediately. -/
def SendDone (s : ServerState) : ServerState :=
  sendRecord s ⟨-1, 0, 0, 0⟩ (encodeHeader (-1) 0 0 0) true

/-- Inner loop of RunPrefetching: for (auto& i = prefetch.overallIndex;
    blocksToSend > 0 && i < prefetch.overallEnd; ++i), counting Sent against
    the budget.  Returns the state, the final index, and the remaining
    budget; `none` when a SendBlock hit undefined behaviour. -/
def prefetchLoop (lz4 : List Nat → List Nat) (s : ServerState) (fid : Int)
    (i stop : Int) (budget : Nat) : Option (ServerState × Int × Nat) :=
  if budget = 0 ∨ stop ≤ i then some (s, i, budget)
  else
    match SendBlock lz4 s fid i false with
    | none => none
    | some (.sent, s') => prefetchLoop lz4 s' fid (i + 1) stop (budget - 1)
    | some (.skipped, s') => prefetchLoop lz4 s' fid (i + 1) stop budget
    | some (.error, s') => prefetchLoop lz4 s' fid (i + 1) stop budget
  termination_by (stop - i).toNat
  decreasing_by all_goals omega

/-- Outer loop of RunPrefetching: while the queue is nonempty and budget
    remains, run the head's inner loop; pop the head when done, otherwise the
    budget is exhausted and the loop exits with the head updated in place. -/
def prefetchQueueLoop (lz4 : List Nat → List Nat) :
    List PrefetchState → Nat → ServerState → Option (List PrefetchState × ServerState)
  | [], _, s => some ([], s)
  | p :: rest, budget, s =>
    if budget = 0 then some (p :: rest, s)
    else
      match prefetchLoop lz4 s p.fileId p.overallIndex p.overallEnd budget with
      | none => none
      | some (s', i', b') =>
        if p.overallEnd ≤ i' then prefetchQueueLoop lz4 rest b' s'
        else some ({ p with overallIndex := i' } :: rest, s')

/-- IncrementalServer::RunPrefetching with its per-pass budget of 128 Sent
    blocks (kPrefetchBlocksPerIteration). -/
def RunPrefetching (lz4 : List Nat → List Nat) (s : ServerState) : Option ServerState :=
  match prefetchQueueLoop lz4 s.prefetches 128 s with
  | none => none
  | some (q, s') => some { s' with prefetches := q }

/-- One event observed at the adb_poll / adb_read suspension point of
    SkipToRequest: a timeout (res = 0), a poll error (res < 0), or readable
    data (res = 1) whose adb_read then yields the given bytes ([] = EOF). -/
inductive NetEv where
  | timeout
  | pollErr
  | ready (bs : List Nat)
  deriving DecidableEq

/-- The INCR magic test: be32toh of the four bytes at position i equals
    0x494e4352, i.e. the bytes are 49 4e 43 52. -/
def magicAt (l : List Nat) (i : Nat) : Bool :=
  decide ((l.drop i).take 4 = [0x49, 0x4e, 0x43, 0x52])

/-- The magic scan of SkipToRequest: for (bcur = 0; bcur + 4 < bsize; ++bcur),
    by structural recursion on the number of remaining scan positions (the
    loop advances bcur by one per iteration, so l.length steps always
    suffice).  Returns the final bcur and whether a magic was found.  The
    strict bound reproduces the source exactly: a magic whose last byte is
    the final buffered byte is not yet recognized. -/
def scanLoop (l : List Nat) : Nat → Nat → Nat × Bool
  | i, 0 => (i, false)
  | i, steps + 1 =>
    if i + 4 < l.length then
      if magicAt l i then (i, true) else scanLoop l (i + 1) steps
    else (i, false)

/-- The scan entered at position i with its exact step bound. -/
def scanFrom (l : List Nat) (i : Nat) : Nat × Bool := scanLoop l i l.length

/-- Result of one SkipToRequest call: a full 8-byte request body, a
    non-terminal timeout (the out-parameter size set to 0), a terminal
    condition (return false), or exhaustion of the modeled event trace. -/
inductive SkipOut where
  | request (bs : List Nat)
  | timeoutNone
  | terminal
  | outOfEvents
  deriving DecidableEq

/-- The scan-and-forward prefix of each SkipToRequest iteration: when the
    scan stopped past position 0, the bytes before it are written to
    output_fd_ and erased from the buffer (lines 235-239). -/
def scanErase (s : ServerState) : ServerState :=
  let bcur := (scanFrom s.buffer 0).1
  if 0 < bcur then
    { s with logSink := s.logSink ++ s.buffer.take bcur
             buffer := s.buffer.drop bcur }
  else s

/-- WriteFdExactly(output_fd_, buffer_.data(), buffer_.size()): the whole
    remaining buffer goes to the log sink and is *not* consumed. -/
def flushToLog (s : ServerState) : ServerState :=
  { s with logSink := s.logSink ++ s.buffer }

/-- IncrementalServer::SkipToRequest.  Each loop iteration scans the buffer,
    forwards the bytes preceding the first magic to output_fd_, returns the
    8 request bytes when 12 bytes starting at a magic are buffered, and
    otherwise polls; on poll failure or timeout the *entire remaining buffer*
    is written to output_fd_ (without being consumed), and on readable data
    up to kReadBufferSize - size bytes are appended before rescanning
    (a read of 0 bytes is the EOF/error exit of the loop). -/
def SkipToRequest (blocking : Bool) :
    ServerState → List NetEv → SkipOut × ServerState × List NetEv
  | s, evs =>
    let s1 := scanErase s
    if (scanFrom s.buffer 0).2 = true ∧ 12 ≤ s1.buffer.length then
      (.request ((s1.buffer.drop 4).take 8), { s1 with buffer := s1.buffer.drop 12 }, evs)
    else
      match evs with
      | [] => (.outOfEvents, s1, [])
      | ev :: rest =>
        match ev with
        | .pollErr => (.terminal, flushToLog s1, rest)
        | .timeout =>
          let s2 := flushToLog s1
          if blocking = true ∧ s2.servingComplete = true then (.terminal, s2, rest)
          else (.timeoutNone, s2, rest)
        | .ready bs =>
          let chunk := bs.take (kReadBufferSize - s1.buffer.length)
          if 0 < chunk.length then
            SkipToRequest blocking { s1 with buffer := s1.buffer ++ chunk } rest
          else (.terminal, flushToLog s1, rest)

/-- Byte accessor with the 0 default (reads of the fixed-size command buffer
    are always in range). -/
def byteAt (bs : List Nat) (i : Nat) : Nat := bs.getD i 0

/-- Decoding of a RequestCommand from its 8 body bytes, as in ReadRequest:
    readBigEndian<RequestType>, readBigEndian<FileId>, readBigEndian<BlockIdx>. -/
def decodeReq (bs : List Nat) : RequestCommand :=
  { requestType := toInt16 ((byteAt bs 0 * 256 + byteAt bs 1 : Nat) : Int)
    fileId := toInt16 ((byteAt bs 2 * 256 + byteAt bs 3 : Nat) : Int)
    blockIdx := toInt32 ((byteAt bs 4 * 16777216 + byteAt bs 5 * 65536 +
                          byteAt bs 6 * 256 + byteAt bs 7 : Nat) : Int) }

/-- Result of IncrementalServer::ReadRequest: `none` when the modeled event
    trace ran out, otherwise the optional request (the DESTROY synthesized on
    a terminal read included). -/
inductive ReadOut where
  | noEvents (s : ServerState) (evs : List NetEv)
  | got (req : Option RequestCommand) (s : ServerState) (evs : List NetEv)
  deriving DecidableEq

/-- IncrementalServer::ReadRequest: a terminal SkipToRequest becomes the
    synthesized {DESTROY} command (its other fields value-initialized to 0),
    a timeout leaves size < sizeof(RequestCommand) and yields no request,
    and a full body is decoded big-endian. -/
def ReadRequest (s : ServerState) (blocking : Bool) (evs : List NetEv) : ReadOut :=
  match SkipToRequest blocking s evs with
  | (.outOfEvents, s', evs') => .noEvents s' evs'
  | (.terminal, s', evs') => .got (some ⟨3, 0, 0⟩) s' evs'
  | (.timeoutNone, s', evs') => .got none s' evs'
  | (.request bs, s', evs') => .got (some (decodeReq bs)) s' evs'

/-- Outcome of the dispatch switch: return from Serve, or fall through to
    RunPrefetching. -/
inductive DispatchOut where
  | halt (ok : Bool) (s : ServerState)
  | next (s : ServerState)
  deriving DecidableEq

/-- The state carried by a DispatchOut. -/
def DispatchOut.state : DispatchOut → ServerState
  | .halt _ s => s
  | .next s => s

/-- The request-dispatch switch of IncrementalServer::Serve (lines 458-518).
    DESTROY returns true; SERVING_COMPLETE sets servingComplete_;
    BLOCK_MISSING counts the miss, validates file_id and block_idx, sends the
    block with flush = true and on Sent counts it and pushes the 7-block
    readahead PrefetchState to the front of the queue; PREFETCH validates
    only file_id >= 0 and first-time insertion into prefetchedFiles before
    evaluating files_[fileId] - so a fresh non-negative file_id beyond the
    table is an out-of-bounds access (`none`); other kinds are dropped. -/
def dispatch (lz4 : List Nat → List Nat) (s : ServerState) (req : Option RequestCommand) :
    Option DispatchOut :=
  match req with
  | none => some (.next s)
  | some r =>
    if r.requestType = 3 then some (.halt true s)
    else if r.requestType = 0 then some (.next { s with servingComplete := true })
    else if r.requestType = 1 then
      let s1 := { s with missesCount := s.missesCount + 1 }
      if r.fileId < 0 ∨ (s1.files.length : Int) ≤ r.fileId ∨ r.blockIdx < 0 ∨
         ((fileAt s1 r.fileId).sentBlocks.length : Int) ≤ r.blockIdx then
        some (.next s1)
      else
        match SendBlock lz4 s1 r.fileId r.blockIdx true with
        | none => none
        | some (.sent, s2) =>
          some (.next { s2 with
            missesSent := s2.missesSent + 1
            prefetches := PrefetchState.ranged r.fileId (r.blockIdx + 1) 7
                            (fileAt s2 r.fileId).sentBlocks.length :: s2.prefetches })
        | some (.skipped, s2) => some (.next s2)
        | some (.error, s2) => some (.next s2)
    else if r.requestType = 2 then
      if r.fileId < 0 then some (.next s)
      else if r.fileId ∈ s.prefetchedFiles then some (.next s)
      else
        let s1 := { s with prefetchedFiles := r.fileId :: s.prefetchedFiles }
        if (s1.files.length : Int) ≤ r.fileId then none
        else
          some (.next { s1 with
            prefetches := s1.prefetches ++
              [PrefetchState.whole r.fileId (fileAt s1 r.fileId).sentBlocks.length] })
    else some (.next s)

/-- The condition under which the claimed completion happened: all files
    fully sent (sentBlocksCount equal to the bitmap size for every file). -/
def allSent (s : ServerState) : Prop :=
  ∀ f ∈ s.files, f.sentBlocksCount = (f.sentBlocks.length : Int)

instance (s : ServerState) : Decidable (allSent s) := by
  unfold allSent; infer_instance

/-- The completion check at the top of the Serve loop: when done was not yet
    sent, the prefetch queue is empty and every file is fully sent, emit
    SendDone and record doneSent. -/
def serveStep1 (s : ServerState) : ServerState :=
  if s.doneSent = false ∧ s.prefetches = [] ∧ allSent s then
    { SendDone s with doneSent := true }
  else s

/-- The pre-read part of a Serve iteration after the completion check:
    blocking = prefetches_.empty(), and a blocking iteration flushes the
    batcher before waiting. -/
def servePre (s : ServerState) : ServerState × Bool :=
  let s1 := serveStep1 s
  let blocking := s1.prefetches.isEmpty
  (if blocking then Flush s1 else s1, blocking)

/-- Why a modeled Serve run stopped: a return from the loop (DESTROY),
    exhaustion of the iteration fuel or of the event trace, or undefined
    behaviour. -/
inductive Outcome where
  | destroyed (ok : Bool)
  | fuelOut
  | eventsOut
  | undef
  deriving DecidableEq

/-- The Serve loop, driven by an iteration fuel and the socket event trace.
    Returns the loop-top states of the iterations that executed, the final
    state, the remaining events, and the outcome.  (The initial SendOkay
    handshake is a transport-level token outside the framed protocol and is
    not part of the modeled wire.) -/
def serveRun (lz4 : List Nat → List Nat) :
    Nat → ServerState → List NetEv → List ServerState × ServerState × List NetEv × Outcome
  | 0, s, evs => ([], s, evs, .fuelOut)
  | fuel + 1, s, evs =>
    let pre := servePre s
    match ReadRequest pre.1 pre.2 evs with
    | .noEvents s3 evs' => ([s], s3, evs', .eventsOut)
    | .got req s3 evs' =>
      match dispatch lz4 s3 req with
      | none => ([s], s3, evs', .undef)
      | some (.halt ok s4) => ([s], s4, evs', .destroyed ok)
      | some (.next s4) =>
        match RunPrefetching lz4 s4 with
        | none => ([s], s4, evs', .undef)
        | some s5 =>
          let r := serveRun lz4 fuel s5 evs'
          (s :: r.1, r.2)

/-- The server state at the top of Serve's loop on entry: files built by
    serve() from the given contents, every buffer empty, counters zero.
    servingComplete_ has no initializer in the source (unlike its sibling
    members), so the initial value it is read with is the indeterminate
    parameter sc0. -/
def initState (sc0 : Bool) (contents : List (List Nat)) : ServerState :=
  { files := contents.map mkFile
    buffer := []
    logSink := []
    prefetches := []
    pendingBlocks := []
    wire := []
    records := []
    servingComplete := sc0
    doneSent := false
    prefetchedFiles := []
    missesCount := 0
    missesSent := 0
    compressedCount := 0
    uncompressedCount := 0
    sentSize := 0 }

/-- The LZ4 stand-in that always fails (returns no bytes); used for concrete
    evaluations. -/
def lz4none : List Nat → List Nat := fun _ => []

/- ------------------------------------------------------------------ -/
/- Helper lemmas.                                                     -/
/- ------------------------------------------------------------------ -/

theorem toInt16_eq_self (n : Int) (h0 : 0 ≤ n) (h1 : n < 32768) : toInt16 n = n := by
  unfold toInt16; omega

theorem be32_length (i : Int) : (be32 i).length = 4 := rfl

theorem readBlockRaw_length_le (f : File) (bi : Nat) :
    (readBlockRaw f bi).length ≤ kBlockSize := by
  unfold readBlockRaw
  simp [Nat.min_le_left]

theorem Flush_core (s : ServerState) :
    (Flush s).files = s.files ∧ (Flush s).prefetches = s.prefetches ∧
    (Flush s).records = s.records ∧ (Flush s).doneSent = s.doneSent ∧
    (Flush s).servingComplete = s.servingComplete ∧
    (Flush s).prefetchedFiles = s.prefetchedFiles ∧
    (Flush s).buffer = s.buffer ∧ (Flush s).logSink = s.logSink := by
  unfold Flush; split <;> simp

theorem Send_core (s : ServerState) (d : List Nat) (fl : Bool) :
    (Send s d fl).files = s.files ∧ (Send s d fl).prefetches = s.prefetches ∧
    (Send s d fl).records = s.records ∧ (Send s d fl).doneSent = s.doneSent ∧
    (Send s d fl).servingComplete = s.servingComplete ∧
    (Send s d fl).prefetchedFiles = s.prefetchedFiles ∧
    (Send s d fl).buffer = s.buffer ∧ (Send s d fl).logSink = s.logSink := by
  simp only [Send]
  split <;> split <;> first
    | exact Flush_core _
    | simp

theorem sendRecord_files (s : ServerState) (r : Rec) (bytes : List Nat) (fl : Bool) :
    (sendRecord s r bytes fl).files = s.files :=
  (Send_core { s with records := s.records ++ [r] } bytes fl).1

theorem sendRecord_prefetches (s : ServerState) (r : Rec) (bytes : List Nat) (fl : Bool) :
    (sendRecord s r bytes fl).prefetches = s.prefetches :=
  (Send_core { s with records := s.records ++ [r] } bytes fl).2.1

theorem sendRecord_records (s : ServerState) (r : Rec) (bytes : List Nat) (fl : Bool) :
    (sendRecord s r bytes fl).records = s.records ++ [r] :=
  (Send_core { s with records := s.records ++ [r] } bytes fl).2.2.1

theorem sendRecord_doneSent (s : ServerState) (r : Rec) (bytes : List Nat) (fl : Bool) :
    (sendRecord s r bytes fl).doneSent = s.doneSent :=
  (Send_core { s with records := s.records ++ [r] } bytes fl).2.2.2.1

theorem sendRecord_servingComplete (s : ServerState) (r : Rec) (bytes : List Nat) (fl : Bool) :
    (sendRecord s r bytes fl).servingComplete = s.servingComplete :=
  (Send_core { s with records := s.records ++ [r] } bytes fl).2.2.2.2.1

theorem sendRecord_prefetchedFiles (s : ServerState) (r : Rec) (bytes : List Nat) (fl : Bool) :
    (sendRecord s r bytes fl).prefetchedFiles = s.prefetchedFiles :=
  (Send_core { s with records := s.records ++ [r] } bytes fl).2.2.2.2.2.1

theorem sendRecord_buffer (s : ServerState) (r : Rec) (bytes : List Nat) (fl : Bool) :
    (sendRecord s r bytes fl).buffer = s.buffer :=
  (Send_core { s with records := s.records ++ [r] } bytes fl).2.2.2.2.2.2.1

theorem sendRecord_logSink (s : ServerState) (r : Rec) (bytes : List Nat) (fl : Bool) :
    (sendRecord s r bytes fl).logSink = s.logSink :=
  (Send_core { s with records := s.records ++ [r] } bytes fl).2.2.2.2.2.2.2

/-- The claimed coherence of the per-file counter with the bitmap. -/
def InvCnt (s : ServerState) : Prop :=
  ∀ f ∈ s.files, f.sentBlocksCount = (f.sentBlocks.count true : Int)

theorem count_set_true (l : List Bool) (i : Nat) (hi : i < l.length)
    (hv : l.getD i false = false) :
    (l.set i true).count true = l.count true + 1 := by
  induction l generalizing i with
  | nil => simp at hi
  | cons a t ih =>
    cases i with
    | zero =>
      simp only [List.getD_cons_zero] at hv
      subst hv
      simp [List.count_cons]
    | succ j =>
      simp only [List.getD_cons_succ] at hv
      simp only [List.length_cons] at hi
      simp [List.set, List.count_cons, ih j (by omega) hv]
      omega

theorem isEmpty_false_of_pos {l : List Nat} (h : 0 < l.length) : l.isEmpty = false := by
  cases l with
  | nil => simp at h
  | cons a t => rfl

theorem length_pos_of_isEmpty_false {l : List Nat} (h : l.isEmpty = false) : 0 < l.length := by
  cases l with
  | nil => simp at h
  | cons a t => simp

/-- Effect of a defined SendBlock on everything the server loop invariants
    track: the core fields other than files/records are untouched, records
    grow only by headers of non-negative file ids, and the counter/bitmap
    coherence is preserved. -/
theorem SendBlock_eff (lz4 : List Nat → List Nat) (s : ServerState) (fid b : Int)
    (fl : Bool) (res : SendResult) (s' : ServerState)
    (h : SendBlock lz4 s fid b fl = some (res, s')) :
    s'.doneSent = s.doneSent ∧ s'.prefetches = s.prefetches ∧
    s'.servingComplete = s.servingComplete ∧
    s'.prefetchedFiles = s.prefetchedFiles ∧
    s'.files.length = s.files.length ∧
    (∃ rs, s'.records = s.records ++ rs ∧ ∀ r ∈ rs, 0 ≤ r.fileId) ∧
    (InvCnt s → InvCnt s') := by
  simp only [SendBlock] at h
  split_ifs at h with hfid hlen hneg hsent hcomp <;>
    first
    | (exact Option.noConfusion h)
    | · -- error / skipped branches: the state is returned unchanged
        simp only [Option.some.injEq, Prod.mk.injEq] at h
        obtain ⟨-, hs⟩ := h
        subst hs
        exact ⟨rfl, rfl, rfl, rfl, rfl, ⟨[], by simp, by simp⟩, fun hi => hi⟩
    | · -- sent branches
        simp only [Option.some.injEq, Prod.mk.injEq] at h
        obtain ⟨-, hs⟩ := h
        subst hs
        refine ⟨?_, ?_, ?_, ?_, ?_, ?_, ?_⟩
        · rw [sendRecord_doneSent]
        · rw [sendRecord_prefetches]
        · rw [sendRecord_servingComplete]
        · rw [sendRecord_prefetchedFiles]
        · rw [sendRecord_files]; simp
        · refine ⟨_, sendRecord_records _ _ _ _, ?_⟩
          intro r hr
          simp only [List.mem_singleton] at hr
          subst hr
          exact hfid.1
        · intro hinv f hf
          rw [sendRecord_files] at hf
          dsimp only at hf
          rcases List.mem_or_eq_of_mem_set hf with hmem | rfl
          · exact hinv f hmem
          · have hb0 : 0 ≤ b := by omega
            have hbi : b.toNat < (fileAt s fid).sentBlocks.length := by
              have := Int.toNat_of_nonneg hb0
              omega
            have hv : (fileAt s fid).sentBlocks.getD b.toNat false = false := by
              simp only [Bool.not_eq_true] at hsent; exact hsent
            have hmemf : fileAt s fid ∈ s.files := by
              have hk : fid.toNat < s.files.length := by
                have := Int.toNat_of_nonneg hfid.1
                omega
              unfold fileAt
              rw [List.getD_eq_getElem _ _ hk]
              exact List.getElem_mem hk
            have hold := hinv (fileAt s fid) hmemf
            dsimp only
            rw [count_set_true _ _ hbi hv]
            push_cast
            omega

/- ------------------------------------------------------------------ -/
/- The output batcher (claim C7).                                     -/
/- ------------------------------------------------------------------ -/

/-- The pending buffer right after Send appends: the lazily allocated 4-byte
    placeholder (when the buffer was empty) followed by the payload so far
    and the new data. -/
def pendingAfter (s : ServerState) (data : List Nat) : List Nat :=
  (if s.pendingBlocks.isEmpty then List.replicate 4 0 else s.pendingBlocks) ++ data

theorem Flush_nonempty (s : ServerState) (h : s.pendingBlocks.isEmpty = false) :
    Flush s = { s with
      wire := s.wire ++ (be32 ((s.pendingBlocks.length : Int) - 4) ++ s.pendingBlocks.drop 4)
      sentSize := s.sentSize + (s.pendingBlocks.length : Int)
      pendingBlocks := [] } := by
  unfold Flush
  rw [if_neg (by simp [h])]

theorem Send_emit (s : ServerState) (d : List Nat) (fl : Bool)
    (h : fl = true ∨ kChunkFlushSize < (pendingAfter s d).length) :
    Send s d fl = Flush { s with pendingBlocks := pendingAfter s d } := by
  unfold Send pendingAfter at *
  rw [if_pos h]

theorem Send_keep (s : ServerState) (d : List Nat) (fl : Bool)
    (h : ¬(fl = true ∨ kChunkFlushSize < (pendingAfter s d).length)) :
    Send s d fl = { s with pendingBlocks := pendingAfter s d } := by
  unfold Send pendingAfter at *
  rw [if_neg h]

theorem pendingAfter_length (s : ServerState) (d : List Nat) :
    (pendingAfter s d).length =
      (if s.pendingBlocks.isEmpty then 4 else s.pendingBlocks.length) + d.length := by
  unfold pendingAfter
  split
  · simp only [List.length_append, List.length_replicate]
  · simp only [List.length_append]

/-- Claim C7 (amended): the accumulated chunk is emitted exactly when flush is
    true or the pending buffer - the 4-byte chunk-header placeholder plus the
    accumulated payload - exceeds 126 976 bytes, i.e. when the payload
    exceeds 126 972 bytes; otherwise the bytes stay buffered. -/
theorem c7_flush_condition (s : ServerState) (data : List Nat) (fl : Bool)
    (hwf : s.pendingBlocks = [] ∨ 4 ≤ s.pendingBlocks.length) :
    ((fl = true ∨ 126972 < s.pendingBlocks.length - 4 + data.length) →
       (Send s data fl).pendingBlocks = [] ∧
       (Send s data fl).wire = s.wire ++
         (be32 (((pendingAfter s data).length : Int) - 4) ++ (pendingAfter s data).drop 4)) ∧
    (¬(fl = true ∨ 126972 < s.pendingBlocks.length - 4 + data.length) →
       Send s data fl = { s with pendingBlocks := pendingAfter s data }) := by
  have hlen := pendingAfter_length s data
  have hcond : (fl = true ∨ kChunkFlushSize < (pendingAfter s data).length) ↔
      (fl = true ∨ 126972 < s.pendingBlocks.length - 4 + data.length) := by
    refine or_congr_right ?_
    unfold kChunkFlushSize kBlockSize
    rcases hwf with hemp | hge
    · have he : s.pendingBlocks.isEmpty = true := by rw [hemp]; rfl
      have h0 : s.pendingBlocks.length = 0 := by rw [hemp]; rfl
      rw [if_pos he] at hlen
      omega
    · have he : s.pendingBlocks.isEmpty = false := isEmpty_false_of_pos (by omega)
      rw [if_neg (by rw [he]; exact Bool.false_ne_true)] at hlen
      omega
  constructor
  · intro hc
    rw [Send_emit s data fl (hcond.mpr hc),
        Flush_nonempty _ (by
          show (pendingAfter s data).isEmpty = false
          refine isEmpty_false_of_pos ?_
          rw [hlen]
          split
          · omega
          · next hx =>
            have hx' : s.pendingBlocks.isEmpty = false := by
              revert hx; cases s.pendingBlocks.isEmpty <;> simp
            have := length_pos_of_isEmpty_false hx'
            omega)]
    exact ⟨rfl, rfl⟩
  · intro hc
    exact Send_keep s data fl (fun hx => hc (hcond.mp hx))

/-- Witness for the amended claim C7: an explicit flush on a fresh batcher
    emits the chunk. -/
theorem c7_flush_condition_witness :
    (Send (initState false []) [1, 2] true).pendingBlocks = [] ∧
    (Send (initState false []) [1, 2] true).wire = (initState false []).wire ++
      (be32 (((pendingAfter (initState false []) [1, 2]).length : Int) - 4) ++
        (pendingAfter (initState false []) [1, 2]).drop 4) :=
  (c7_flush_condition (initState false []) [1, 2] true (Or.inl rfl)).1 (Or.inl rfl)

/-- Counterexample to claim C7 as stated: a payload of 126 973 bytes does not
    exceed 126 976, so by the claim it should stay buffered with flush =
    false, yet the chunk is emitted (the source compares the threshold
    against the buffer size including the 4 header bytes). -/
theorem c7_threshold_counterexample :
    (Send (initState false []) (List.replicate 126973 1) false).pendingBlocks = [] ∧
    (Send (initState false []) (List.replicate 126973 1) false).wire.length = 126977 := by
  have hpa : (pendingAfter (initState false []) (List.replicate 126973 1)).length = 126977 := by
    rw [pendingAfter_length]
    norm_num [initState]
  have hc : (false = true ∨
      kChunkFlushSize < (pendingAfter (initState false []) (List.replicate 126973 1)).length) := by
    right
    rw [hpa]
    norm_num [kChunkFlushSize, kBlockSize]
  rw [Send_emit _ _ _ hc, Flush_nonempty _ (by
    show (pendingAfter (initState false []) (List.replicate 126973 1)).isEmpty = false
    exact isEmpty_false_of_pos (by rw [hpa]; omega))]
  refine ⟨rfl, ?_⟩
  show ((initState false []).wire ++
    (be32 (((pendingAfter (initState false []) (List.replicate 126973 1)).length : Int) - 4) ++
      (pendingAfter (initState false []) (List.replicate 126973 1)).drop 4)).length = 126977
  rw [show (initState false []).wire = ([] : List Nat) from rfl, List.nil_append,
      List.length_append, be32_length, List.length_drop, hpa]

/- ------------------------------------------------------------------ -/
/- SendBlock guards (claim C5).                                       -/
/- ------------------------------------------------------------------ -/

/-- Claim C5 (amended): with a valid file_id, a block_idx at or past the end
    of the file gives Error with no state change, and an in-range block
    already marked sent gives Skipped with no state change; the source does
    not guard a negative block_idx (all call sites keep it non-negative). -/
theorem c5_send_block_guards (lz4 : List Nat → List Nat) (s : ServerState) (fid b : Int)
    (fl : Bool) (hid : 0 ≤ fid ∧ fid < (s.files.length : Int)) :
    (((fileAt s fid).sentBlocks.length : Int) ≤ b →
       SendBlock lz4 s fid b fl = some (.error, s)) ∧
    (0 ≤ b → b < ((fileAt s fid).sentBlocks.length : Int) →
       (fileAt s fid).sentBlocks.getD b.toNat false = true →
       SendBlock lz4 s fid b fl = some (.skipped, s)) := by
  constructor
  · intro hb
    simp only [SendBlock]
    rw [if_pos hid, if_pos hb]
  · intro hb0 hb hsent
    simp only [SendBlock]
    rw [if_pos hid, if_neg (by omega), if_neg (by omega), if_pos hsent]

/-- Concrete state for exercising the C5 guards: one file of one block whose
    block is already marked sent. -/
def stateC5 : ServerState :=
  { initState false [] with files := [⟨[9], [true], 1⟩] }

/-- Witness for the amended claim C5 at concrete inputs. -/
theorem c5_send_block_guards_witness :
    SendBlock lz4none stateC5 0 5 false = some (.error, stateC5) ∧
    SendBlock lz4none stateC5 0 0 false = some (.skipped, stateC5) :=
  ⟨(c5_send_block_guards lz4none stateC5 0 5 false (by decide)).1 (by decide),
   (c5_send_block_guards lz4none stateC5 0 0 false (by decide)).2 (by decide) (by decide)
     (by decide)⟩

/-- Counterexample to claim C5 as stated: block_idx = -1 is out of range, so
    the claim demands the result Error with no state change, but the source
    only checks the upper bound and reaches the bitmap access
    sentBlocks[-1], which is out of bounds (undefined behaviour, `none` in
    the model) rather than a guaranteed Error. -/
theorem c5_negative_idx_counterexample :
    SendBlock lz4none stateC5 0 (-1) false = none := by decide

/- ------------------------------------------------------------------ -/
/- Compression choice (claim C1).                                     -/
/- ------------------------------------------------------------------ -/

/-- The acceptance condition of the compressed form exactly as the source
    compares it (on the int16-narrowed compressor result). -/
def compChoice (lz4 : List Nat → List Nat) (f : File) (bi : Nat) : Prop :=
  0 < toInt16 ((lz4 (readBlockRaw f bi)).length : Int) ∧
  toInt16 ((lz4 (readBlockRaw f bi)).length : Int) < kCompressedSizeMax

instance (lz4 : List Nat → List Nat) (f : File) (bi : Nat) :
    Decidable (compChoice lz4 f bi) := by
  unfold compChoice; infer_instance

/-- The record appended by a successful SendBlock. -/
def sentRec (lz4 : List Nat → List Nat) (f : File) (fid b : Int) : Rec :=
  ⟨fid, if compChoice lz4 f b.toNat then 1 else 0, b,
    if compChoice lz4 f b.toNat
    then toInt16 ((lz4 (readBlockRaw f b.toNat)).length : Int)
    else toInt16 ((readBlockRaw f b.toNat).length : Int)⟩

theorem SendBlock_sent_record (lz4 : List Nat → List Nat) (s : ServerState)
    (fid b : Int) (fl : Bool) (s' : ServerState)
    (h : SendBlock lz4 s fid b fl = some (.sent, s')) :
    s'.records = s.records ++ [sentRec lz4 (fileAt s fid) fid b] := by
  simp only [SendBlock] at h
  split_ifs at h with hfid hlen hneg hsent hcomp
  · exact absurd (by
      simp only [Option.some.injEq, Prod.mk.injEq] at h
      exact h.1) (by decide)
  · exact absurd (by
      simp only [Option.some.injEq, Prod.mk.injEq] at h
      exact h.1) (by decide)
  · simp only [Option.some.injEq, Prod.mk.injEq] at h
    obtain ⟨-, hs⟩ := h
    subst hs
    rw [sendRecord_records]
    unfold sentRec
    rw [if_pos (by exact hcomp), if_pos (by exact hcomp)]
  · simp only [Option.some.injEq, Prod.mk.injEq] at h
    obtain ⟨-, hs⟩ := h
    subst hs
    rw [sendRecord_records]
    unfold sentRec
    rw [if_neg (by exact hcomp), if_neg (by exact hcomp)]

/-- Claim C1: for every block actually read and sent, the compressed form is
    chosen iff the compressor returned a positive length strictly below
    kCompressedSizeMax = 3891; the emitted record has block_size < 3891 when
    compression = 1, and block_size equal to the raw number of bytes read
    (at most kBlockSize = 4096) when compression = 0.  The hypothesis is the
    LZ4_compress_default contract: the result never exceeds the destination
    capacity kCompressBound = 4128. -/
theorem c1_send_block_compression (lz4 : List Nat → List Nat) (s : ServerState)
    (fid b : Int) (fl : Bool) (s' : ServerState)
    (hlz : ∀ bs : List Nat, (lz4 bs).length ≤ kCompressBound)
    (h : SendBlock lz4 s fid b fl = some (.sent, s')) :
    ∃ r : Rec, s'.records = s.records ++ [r] ∧
      (r.compression = 1 ↔
        (0 < (lz4 (readBlockRaw (fileAt s fid) b.toNat)).length ∧
         ((lz4 (readBlockRaw (fileAt s fid) b.toNat)).length : Int) < kCompressedSizeMax)) ∧
      (r.compression = 1 → r.blockSize < kCompressedSizeMax) ∧
      (r.compression = 0 →
        r.blockSize = ((readBlockRaw (fileAt s fid) b.toNat).length : Int) ∧
        (readBlockRaw (fileAt s fid) b.toNat).length ≤ kBlockSize) := by
  have hbound := hlz (readBlockRaw (fileAt s fid) b.toNat)
  have hcb : kCompressBound = 4128 := by decide
  have hid : toInt16 ((lz4 (readBlockRaw (fileAt s fid) b.toNat)).length : Int) =
      ((lz4 (readBlockRaw (fileAt s fid) b.toNat)).length : Int) := by
    apply toInt16_eq_self <;> omega
  have hraw : (readBlockRaw (fileAt s fid) b.toNat).length ≤ kBlockSize :=
    readBlockRaw_length_le _ _
  have hrawid : toInt16 (((readBlockRaw (fileAt s fid) b.toNat).length : Nat) : Int) =
      (((readBlockRaw (fileAt s fid) b.toNat).length : Nat) : Int) := by
    apply toInt16_eq_self
    · omega
    · have hbs : kBlockSize = 4096 := rfl
      omega
  refine ⟨sentRec lz4 (fileAt s fid) fid b, SendBlock_sent_record lz4 s fid b fl s' h,
    ?_, ?_, ?_⟩
  · unfold sentRec
    dsimp only
    by_cases hc : compChoice lz4 (fileAt s fid) b.toNat
    · rw [if_pos hc]
      unfold compChoice at hc
      rw [hid] at hc
      simp only [true_iff]
      unfold kCompressedSizeMax at hc ⊢
      omega
    · rw [if_neg hc]
      unfold compChoice at hc
      rw [hid] at hc
      simp only [show ¬((0 : Int) = 1) by omega, false_iff]
      intro hcon
      exact hc ⟨by omega, by omega⟩
  · unfold sentRec
    dsimp only
    by_cases hc : compChoice lz4 (fileAt s fid) b.toNat
    · rw [if_pos hc, if_pos hc]
      intro _
      unfold compChoice at hc
      exact hc.2
    · rw [if_neg hc, if_neg hc]
      intro hcon
      exact absurd hcon (by norm_num)
  · unfold sentRec
    dsimp only
    by_cases hc : compChoice lz4 (fileAt s fid) b.toNat
    · rw [if_pos hc, if_pos hc]
      intro hcon
      exact absurd hcon (by norm_num)
    · rw [if_neg hc, if_neg hc]
      intro _
      exact ⟨hrawid, hraw⟩

/-- Concrete post-state of a successful SendBlock, for the C1 witness. -/
def stateC1 : ServerState :=
  match SendBlock lz4none (initState false [[9]]) 0 0 false with
  | some (_, t) => t
  | none => initState false [[9]]

/-- Witness for claim C1 at a concrete Sent call (the always-failing
    compressor, so the uncompressed branch is taken). -/
theorem c1_send_block_compression_witness :
    ∃ r : Rec, stateC1.records = (initState false [[9]]).records ++ [r] ∧
      (r.compression = 1 ↔
        (0 < (lz4none (readBlockRaw (fileAt (initState false [[9]]) 0) (0 : Int).toNat)).length ∧
         ((lz4none (readBlockRaw (fileAt (initState false [[9]]) 0) (0 : Int).toNat)).length : Int)
           < kCompressedSizeMax)) ∧
      (r.compression = 1 → r.blockSize < kCompressedSizeMax) ∧
      (r.compression = 0 →
        r.blockSize = ((readBlockRaw (fileAt (initState false [[9]]) 0) (0 : Int).toNat).length : Int) ∧
        (readBlockRaw (fileAt (initState false [[9]]) 0) (0 : Int).toNat).length ≤ kBlockSize) :=
  c1_send_block_compression lz4none (initState false [[9]]) 0 0 false stateC1
    (fun bs => by simp [lz4none, kCompressBound]) (by decide)

/- ------------------------------------------------------------------ -/
/- Invalid requests (claim C6).                                       -/
/- ------------------------------------------------------------------ -/

/-- Claim C6 (code bug): a PREFETCH with a non-negative, fresh file_id beyond
    the file table passes both validations of the source (file_id >= 0 and
    first-time insertion) and then evaluates files_[fileId] out of bounds:
    with a single file, the request PREFETCH file_id = 1 drives dispatch into
    undefined behaviour instead of being logged and dropped with all array
    accesses in bounds. -/
theorem c6_prefetch_out_of_range_access :
    dispatch lz4none (initState false [[9]]) (some ⟨2, 1, 0⟩) = none := by decide

/- ------------------------------------------------------------------ -/
/- Timeout termination (claim C8).                                    -/
/- ------------------------------------------------------------------ -/

/-- Claim C8 (code bug): servingComplete_ has no initializer (unlike the
    sibling members compressed_, uncompressed_ and sentSize_), so the value
    the first timeout check reads is indeterminate.  When that indeterminate
    value is true, the very first blocking timeout of a session that never
    processed a SERVING_COMPLETE already returns terminal (a synthesized
    DESTROY ends the session); when it is false the loop continues. -/
theorem c8_uninitialized_serving_complete :
    (serveRun lz4none 1 (initState true [[9]]) [.timeout]).2.2.2 = .destroyed true ∧
    (serveRun lz4none 1 (initState false [[9]]) [.timeout]).2.2.2 = .fuelOut := by decide

/- ------------------------------------------------------------------ -/
/- Byte routing (claim C9).                                           -/
/- ------------------------------------------------------------------ -/

/-- The state after one SkipToRequest call that buffers the inbound byte 97
    and then times out. -/
def stateC9 : ServerState :=
  (SkipToRequest true (initState false [[9]]) [.ready [97], .timeout]).2.1

/-- Claim C9 (code bug): the single inbound byte 97 is forwarded to the log
    sink twice.  On every timed-out poll SkipToRequest writes the entire
    remaining buffer to output_fd_ without consuming it, so the byte is
    logged on the first timeout, stays buffered, and is logged again on the
    next timed-out read of the serve loop. -/
theorem c9_double_forward_to_log :
    stateC9.logSink = [97] ∧ stateC9.buffer = [97] ∧
    (SkipToRequest true stateC9 [.timeout]).2.1.logSink = [97, 97] := by decide

/- ------------------------------------------------------------------ -/
/- DESTROY semantics (claim C10).                                     -/
/- ------------------------------------------------------------------ -/

/-- Claim C10: when the request dispatched in an iteration is DESTROY, Serve
    returns success at once with exactly the post-read state: no Flush runs
    after the read, so response bytes still in pendingBlocks_ are discarded
    and the wire never receives them. -/
theorem c10_destroy_no_flush (lz4 : List Nat → List Nat) (fuel : Nat)
    (s s3 : ServerState) (evs evs' : List NetEv) (r : RequestCommand)
    (h : ReadRequest (servePre s).1 (servePre s).2 evs = .got (some r) s3 evs')
    (hr : r.requestType = 3) :
    serveRun lz4 (fuel + 1) s evs = ([s], s3, evs', .destroyed true) ∧
    (serveRun lz4 (fuel + 1) s evs).2.1.pendingBlocks = s3.pendingBlocks ∧
    (serveRun lz4 (fuel + 1) s evs).2.1.wire = s3.wire := by
  have hd : dispatch lz4 s3 (some r) = some (.halt true s3) := by
    simp only [dispatch]
    rw [if_pos hr]
  have hgoal : serveRun lz4 (fuel + 1) s evs = ([s], s3, evs', .destroyed true) := by
    simp only [serveRun, h, hd]
  exact ⟨hgoal, by rw [hgoal], by rw [hgoal]⟩

/-- The 12 wire bytes of a DESTROY request: the INCR magic and the 8-byte
    command with request_type 3. -/
def destroyEvs : List NetEv := [.ready [73, 78, 67, 82, 0, 3, 0, 0, 0, 0, 0, 0]]

/-- Concrete post-read state for the C10 witness. -/
def stateC10 : ServerState :=
  match ReadRequest (servePre (initState false [[9]])).1
      (servePre (initState false [[9]])).2 destroyEvs with
  | .got _ t _ => t
  | _ => initState false [[9]]

/-- Witness for claim C10 at a concrete DESTROY exchange. -/
theorem c10_destroy_no_flush_witness :
    serveRun lz4none 1 (initState false [[9]]) destroyEvs =
      ([initState false [[9]]], stateC10, [], .destroyed true) :=
  (c10_destroy_no_flush lz4none 0 (initState false [[9]]) stateC10 destroyEvs []
    ⟨3, 0, 0⟩ (by decide) rfl).1

/- ------------------------------------------------------------------ -/
/- Prefetch enqueueing (claim C4).                                    -/
/- ------------------------------------------------------------------ -/

/-- Claim C4: an accepted BLOCK_MISSING whose SendBlock result is Sent pushes
    a PrefetchState for the same file with cursor block_idx + 1 and end
    min(block_idx + 8, block_count) to the front of the prefetch queue; an
    accepted PREFETCH appends the whole-file PrefetchState with cursor 0 and
    end block_count to the back. -/
theorem c4_prefetch_enqueue (lz4 : List Nat → List Nat) (s s2 : ServerState)
    (fid b pl : Int) :
    ((0 ≤ fid ∧ fid < (s.files.length : Int)) → 0 ≤ b →
      b < ((fileAt s fid).sentBlocks.length : Int) →
      SendBlock lz4 { s with missesCount := s.missesCount + 1 } fid b true =
        some (.sent, s2) →
      dispatch lz4 s (some ⟨1, fid, b⟩) = some (.next { s2 with
        missesSent := s2.missesSent + 1
        prefetches :=
          (⟨fid, b + 1, min (b + 8) ((fileAt s2 fid).sentBlocks.length : Int)⟩ :
            PrefetchState) :: s2.prefetches })) ∧
    ((0 ≤ fid ∧ fid < (s.files.length : Int)) → fid ∉ s.prefetchedFiles →
      dispatch lz4 s (some ⟨2, fid, pl⟩) = some (.next { s with
        prefetchedFiles := fid :: s.prefetchedFiles
        prefetches := s.prefetches ++
          [(⟨fid, 0, ((fileAt s fid).sentBlocks.length : Int)⟩ : PrefetchState)] })) := by
  constructor
  · intro hid hb0 hb hsb
    unfold dispatch
    dsimp only
    rw [if_neg (by decide), if_neg (by decide), if_pos rfl,
        if_neg (by
          simp only [show ({ s with missesCount := s.missesCount + 1 } :
              ServerState).files = s.files from rfl,
            show fileAt { s with missesCount := s.missesCount + 1 } fid = fileAt s fid
              from rfl]
          omega), hsb]
    dsimp only
    have hps : PrefetchState.ranged fid (b + 1) 7 (fileAt s2 fid).sentBlocks.length =
        (⟨fid, b + 1, min (b + 8) ((fileAt s2 fid).sentBlocks.length : Int)⟩ :
          PrefetchState) := by
      unfold PrefetchState.ranged
      have harith : b + 1 + 7 = b + 8 := by ring
      rw [harith]
    rw [hps]
  · intro hid hni
    unfold dispatch
    dsimp only
    rw [if_neg (by decide), if_neg (by decide), if_neg (by decide), if_pos rfl,
        if_neg (by omega), if_neg (by exact hni), if_neg (by omega)]
    rfl

/-- Initial state for the C4 witness. -/
def s0C4 : ServerState := initState false [[5]]

/-- Concrete post-SendBlock state for the C4 witness. -/
def s2C4 : ServerState :=
  match SendBlock lz4none { s0C4 with missesCount := s0C4.missesCount + 1 } 0 0 true with
  | some (_, t) => t
  | none => s0C4

/-- Witness for claim C4 at a concrete miss and a concrete prefetch request. -/
theorem c4_prefetch_enqueue_witness :
    dispatch lz4none s0C4 (some ⟨1, 0, 0⟩) = some (.next { s2C4 with
      missesSent := s2C4.missesSent + 1
      prefetches :=
        (⟨0, 0 + 1, min (0 + 8) ((fileAt s2C4 0).sentBlocks.length : Int)⟩ :
          PrefetchState) :: s2C4.prefetches }) ∧
    dispatch lz4none s0C4 (some ⟨2, 0, 0⟩) = some (.next { s0C4 with
      prefetchedFiles := 0 :: s0C4.prefetchedFiles
      prefetches := s0C4.prefetches ++
        [(⟨0, 0, ((fileAt s0C4 0).sentBlocks.length : Int)⟩ : PrefetchState)] }) :=
  ⟨(c4_prefetch_enqueue lz4none s0C4 s2C4 0 0 0).1 (by decide) (by decide) (by decide)
      (by decide),
   (c4_prefetch_enqueue lz4none s0C4 s2C4 0 0 0).2 (by decide) (by decide)⟩

/- ------------------------------------------------------------------ -/
/- Session invariants (claims C2 and C3).                             -/
/- ------------------------------------------------------------------ -/

/-- Number of end-of-stream sentinel records (file_id = -1) in a record
    history. -/
def countSentinel (rs : List Rec) : Nat := rs.countP (fun r => r.fileId == -1)

/-- The claimed completion condition: every file fully sent while the
    prefetch queue is empty. -/
def condC (s : ServerState) : Prop := allSent s ∧ s.prefetches = []

/-- The loop invariants of Serve: the sentinel appears in the record history
    exactly once if doneSent is recorded and never otherwise, every sentinel
    record carries block_size = 0 and compression = 0, and each file's
    sentBlocksCount equals the popcount of its bitmap. -/
def MetaInv (s : ServerState) : Prop :=
  countSentinel s.records = (if s.doneSent then 1 else 0) ∧
  (∀ r ∈ s.records, r.fileId = -1 → r.blockSize = 0 ∧ r.compression = 0) ∧
  InvCnt s

/-- Effect of an intra-iteration operation: records grow only by headers of
    non-negative file ids, doneSent is untouched and counter coherence is
    preserved. -/
def Eff (s s' : ServerState) : Prop :=
  (∃ rs, s'.records = s.records ++ rs ∧ ∀ r ∈ rs, 0 ≤ r.fileId) ∧
  s'.doneSent = s.doneSent ∧ (InvCnt s → InvCnt s')

theorem Eff_refl (s : ServerState) : Eff s s :=
  ⟨⟨[], by simp, by simp⟩, rfl, fun h => h⟩

theorem Eff_trans {s1 s2 s3 : ServerState} (h12 : Eff s1 s2) (h23 : Eff s2 s3) :
    Eff s1 s3 := by
  obtain ⟨⟨rs, hr, ha⟩, hd, hi⟩ := h12
  obtain ⟨⟨rs', hr', ha'⟩, hd', hi'⟩ := h23
  refine ⟨⟨rs ++ rs', ?_, ?_⟩, hd'.trans hd, fun h => hi' (hi h)⟩
  · rw [hr', hr, List.append_assoc]
  · intro r hrm
    rcases List.mem_append.mp hrm with hm | hm
    · exact ha r hm
    · exact ha' r hm

theorem Eff_of_core {s s' : ServerState} (hr : s'.records = s.records)
    (hd : s'.doneSent = s.doneSent) (hf : s'.files = s.files) : Eff s s' :=
  ⟨⟨[], by simp [hr], by simp⟩, hd, fun h f hf' => h f (hf ▸ hf')⟩

theorem Eff_countSentinel {s s' : ServerState} (h : Eff s s') :
    countSentinel s'.records = countSentinel s.records := by
  obtain ⟨⟨rs, hr, ha⟩, -, -⟩ := h
  rw [hr]
  unfold countSentinel
  rw [List.countP_append]
  have hz : rs.countP (fun r => r.fileId == -1) = 0 := by
    rw [List.countP_eq_zero]
    intro r hrm
    have := ha r hrm
    simp only [beq_iff_eq]
    omega
  omega

theorem Eff_MetaInv {s s' : ServerState} (he : Eff s s') (hm : MetaInv s) : MetaInv s' := by
  obtain ⟨h1, h2, h3⟩ := hm
  obtain ⟨⟨rs, hr, ha⟩, hd, hi⟩ := he
  refine ⟨?_, ?_, hi h3⟩
  · rw [Eff_countSentinel ⟨⟨rs, hr, ha⟩, hd, hi⟩, hd, h1]
  · intro r hrm hneg
    rw [hr] at hrm
    rcases List.mem_append.mp hrm with hm' | hm'
    · exact h2 r hm' hneg
    · exact absurd hneg (by have := ha r hm'; omega)

theorem Flush_Eff (s : ServerState) : Eff s (Flush s) :=
  Eff_of_core (Flush_core s).2.2.1 (Flush_core s).2.2.2.1 (Flush_core s).1

theorem Send_Eff (s : ServerState) (d : List Nat) (fl : Bool) : Eff s (Send s d fl) :=
  Eff_of_core (Send_core s d fl).2.2.1 (Send_core s d fl).2.2.2.1 (Send_core s d fl).1

theorem SendBlock_Eff (lz4 : List Nat → List Nat) (s : ServerState) (fid b : Int)
    (fl : Bool) (res : SendResult) (s' : ServerState)
    (h : SendBlock lz4 s fid b fl = some (res, s')) : Eff s s' :=
  ⟨(SendBlock_eff lz4 s fid b fl res s' h).2.2.2.2.2.1,
   (SendBlock_eff lz4 s fid b fl res s' h).1,
   (SendBlock_eff lz4 s fid b fl res s' h).2.2.2.2.2.2⟩

theorem scanErase_core (s : ServerState) :
    (scanErase s).records = s.records ∧ (scanErase s).doneSent = s.doneSent ∧
    (scanErase s).files = s.files ∧ (scanErase s).prefetches = s.prefetches ∧
    (scanErase s).servingComplete = s.servingComplete := by
  simp only [scanErase]
  split <;> simp

theorem flushToLog_core (s : ServerState) :
    (flushToLog s).records = s.records ∧ (flushToLog s).doneSent = s.doneSent ∧
    (flushToLog s).files = s.files ∧ (flushToLog s).prefetches = s.prefetches ∧
    (flushToLog s).servingComplete = s.servingComplete := by
  unfold flushToLog
  exact ⟨rfl, rfl, rfl, rfl, rfl⟩

theorem ite_out_state (c : Prop) [Decidable c] (o1 o2 : SkipOut) (x : ServerState)
    (r : List NetEv) : (if c then (o1, x, r) else (o2, x, r)).2.1 = x := by
  split <;> rfl

theorem SkipToRequest_core (blocking : Bool) (evs : List NetEv) : ∀ (s : ServerState),
    (SkipToRequest blocking s evs).2.1.records = s.records ∧
    (SkipToRequest blocking s evs).2.1.doneSent = s.doneSent ∧
    (SkipToRequest blocking s evs).2.1.files = s.files ∧
    (SkipToRequest blocking s evs).2.1.prefetches = s.prefetches := by
  induction evs with
  | nil =>
    intro s
    simp only [SkipToRequest]
    split
    · exact ⟨(scanErase_core s).1, (scanErase_core s).2.1, (scanErase_core s).2.2.1,
        (scanErase_core s).2.2.2.1⟩
    · exact ⟨(scanErase_core s).1, (scanErase_core s).2.1, (scanErase_core s).2.2.1,
        (scanErase_core s).2.2.2.1⟩
  | cons ev rest ih =>
    intro s
    have hs1 := scanErase_core s
    simp only [SkipToRequest]
    split
    · exact ⟨hs1.1, hs1.2.1, hs1.2.2.1, hs1.2.2.2.1⟩
    · cases ev <;> try dsimp only
      case pollErr =>
        have h2 := flushToLog_core (scanErase s)
        exact ⟨h2.1.trans hs1.1, h2.2.1.trans hs1.2.1, h2.2.2.1.trans hs1.2.2.1,
          h2.2.2.2.1.trans hs1.2.2.2.1⟩
      case timeout =>
        have h2 := flushToLog_core (scanErase s)
        refine ⟨?_, ?_, ?_, ?_⟩ <;>
          (rw [ite_out_state])
        · exact h2.1.trans hs1.1
        · exact h2.2.1.trans hs1.2.1
        · exact h2.2.2.1.trans hs1.2.2.1
        · exact h2.2.2.2.1.trans hs1.2.2.2.1
      case ready bs =>
        split
        · have h3 := ih { scanErase s with
            buffer := (scanErase s).buffer ++
              bs.take (kReadBufferSize - (scanErase s).buffer.length) }
          exact ⟨h3.1.trans hs1.1, h3.2.1.trans hs1.2.1, h3.2.2.1.trans hs1.2.2.1,
            h3.2.2.2.trans hs1.2.2.2.1⟩
        · have h2 := flushToLog_core (scanErase s)
          exact ⟨h2.1.trans hs1.1, h2.2.1.trans hs1.2.1, h2.2.2.1.trans hs1.2.2.1,
            h2.2.2.2.1.trans hs1.2.2.2.1⟩

/-- The state carried by a ReadOut. -/
def ReadOut.state : ReadOut → ServerState
  | .noEvents s _ => s
  | .got _ s _ => s

theorem ReadRequest_core (s : ServerState) (blocking : Bool) (evs : List NetEv) :
    (ReadRequest s blocking evs).state.records = s.records ∧
    (ReadRequest s blocking evs).state.doneSent = s.doneSent ∧
    (ReadRequest s blocking evs).state.files = s.files ∧
    (ReadRequest s blocking evs).state.prefetches = s.prefetches := by
  unfold ReadRequest
  have h := SkipToRequest_core blocking evs s
  rcases hsk : SkipToRequest blocking s evs with ⟨o, s', evs'⟩
  rw [hsk] at h
  cases o <;> exact h

theorem MetaInv_of_core {s s' : ServerState} (hr : s'.records = s.records)
    (hd : s'.doneSent = s.doneSent) (hf : s'.files = s.files) :
    MetaInv s → MetaInv s' :=
  Eff_MetaInv (Eff_of_core hr hd hf)

theorem dispatch_Eff (lz4 : List Nat → List Nat) (s : ServerState)
    (req : Option RequestCommand) (out : DispatchOut)
    (h : dispatch lz4 s req = some out) : Eff s out.state := by
  cases req with
  | none =>
    simp only [dispatch, Option.some.injEq] at h
    subst h
    exact Eff_refl s
  | some r =>
    simp only [dispatch] at h
    split_ifs at h with h3 h0 h1 hbad h2 hneg hmem hlen
    · simp only [Option.some.injEq] at h
      subst h
      exact Eff_refl s
    · simp only [Option.some.injEq] at h
      subst h
      exact Eff_of_core rfl rfl rfl
    · -- BLOCK_MISSING, invalid arguments: only missesCount changed
      simp only [Option.some.injEq] at h
      subst h
      exact Eff_of_core rfl rfl rfl
    · -- BLOCK_MISSING, valid: bump, SendBlock, then bookkeeping
      have he0 : Eff s { s with missesCount := s.missesCount + 1 } :=
        Eff_of_core rfl rfl rfl
      cases hsb : SendBlock lz4 { s with missesCount := s.missesCount + 1 }
          r.fileId r.blockIdx true with
      | none => rw [hsb] at h; exact Option.noConfusion h
      | some p =>
        rcases p with ⟨res, s2⟩
        rw [hsb] at h
        have he1 := SendBlock_Eff lz4 _ r.fileId r.blockIdx true res s2 hsb
        cases res with
        | sent =>
          simp only [Option.some.injEq] at h
          subst h
          exact Eff_trans he0 (Eff_trans he1 (Eff_of_core rfl rfl rfl))
        | skipped =>
          simp only [Option.some.injEq] at h
          subst h
          exact Eff_trans he0 he1
        | error =>
          simp only [Option.some.injEq] at h
          subst h
          exact Eff_trans he0 he1
    · simp only [Option.some.injEq] at h
      subst h
      exact Eff_refl s
    · simp only [Option.some.injEq] at h
      subst h
      exact Eff_refl s
    · simp only [Option.some.injEq] at h
      subst h
      exact Eff_of_core rfl rfl rfl
    · simp only [Option.some.injEq] at h
      subst h
      exact Eff_refl s

theorem prefetchLoop_Eff (lz4 : List Nat → List Nat) (fid stop : Int) :
    ∀ (n : Nat) (s : ServerState) (i : Int) (budget : Nat) (s' : ServerState)
      (i' : Int) (b' : Nat), (stop - i).toNat = n →
      prefetchLoop lz4 s fid i stop budget = some (s', i', b') → Eff s s' := by
  intro n
  induction n using Nat.strong_induction_on with
  | _ n ih =>
    intro s i budget s' i' b' hn h
    unfold prefetchLoop at h
    split_ifs at h with hstop
    · simp only [Option.some.injEq, Prod.mk.injEq] at h
      obtain ⟨hs, -, -⟩ := h
      subst hs
      exact Eff_refl s
    · cases hsb : SendBlock lz4 s fid i false with
      | none => rw [hsb] at h; exact Option.noConfusion h
      | some p =>
        rcases p with ⟨res, s1⟩
        rw [hsb] at h
        have he1 := SendBlock_Eff lz4 s fid i false res s1 hsb
        have hlt : (stop - (i + 1)).toNat < n := by omega
        cases res with
        | sent => exact Eff_trans he1 (ih _ hlt s1 (i + 1) (budget - 1) s' i' b' rfl h)
        | skipped => exact Eff_trans he1 (ih _ hlt s1 (i + 1) budget s' i' b' rfl h)
        | error => exact Eff_trans he1 (ih _ hlt s1 (i + 1) budget s' i' b' rfl h)

theorem prefetchQueueLoop_Eff (lz4 : List Nat → List Nat) :
    ∀ (q : List PrefetchState) (budget : Nat) (s : ServerState)
      (q' : List PrefetchState) (s' : ServerState),
      prefetchQueueLoop lz4 q budget s = some (q', s') → Eff s s' := by
  intro q
  induction q with
  | nil =>
    intro budget s q' s' h
    simp only [prefetchQueueLoop, Option.some.injEq, Prod.mk.injEq] at h
    obtain ⟨-, hs⟩ := h
    subst hs
    exact Eff_refl s
  | cons p rest ih =>
    intro budget s q' s' h
    simp only [prefetchQueueLoop] at h
    split_ifs at h with hb
    · simp only [Option.some.injEq, Prod.mk.injEq] at h
      obtain ⟨-, hs⟩ := h
      subst hs
      exact Eff_refl s
    · cases hpl : prefetchLoop lz4 s p.fileId p.overallIndex p.overallEnd budget with
      | none => rw [hpl] at h; exact Option.noConfusion h
      | some t =>
        rcases t with ⟨s1, i1, b1⟩
        simp only [hpl] at h
        have he1 := prefetchLoop_Eff lz4 p.fileId p.overallEnd
          (p.overallEnd - p.overallIndex).toNat s p.overallIndex budget s1 i1 b1 rfl hpl
        split_ifs at h with hdone
        · exact Eff_trans he1 (ih b1 s1 q' s' h)
        · simp only [Option.some.injEq, Prod.mk.injEq] at h
          obtain ⟨-, hs⟩ := h
          subst hs
          exact he1

theorem RunPrefetching_Eff (lz4 : List Nat → List Nat) (s s' : ServerState)
    (h : RunPrefetching lz4 s = some s') : Eff s s' := by
  unfold RunPrefetching at h
  cases hq : prefetchQueueLoop lz4 s.prefetches 128 s with
  | none => rw [hq] at h; exact Option.noConfusion h
  | some t =>
    rcases t with ⟨q, s1⟩
    rw [hq] at h
    simp only [Option.some.injEq] at h
    subst h
    exact Eff_trans (prefetchQueueLoop_Eff lz4 s.prefetches 128 s q s1 hq)
      (Eff_of_core rfl rfl rfl)

theorem serveStep1_spec (s : ServerState) (h : MetaInv s) :
    MetaInv (serveStep1 s) ∧
    ((serveStep1 s).doneSent = true ↔ (s.doneSent = true ∨ condC s)) ∧
    (serveStep1 s).prefetches = s.prefetches ∧
    (serveStep1 s).files = s.files := by
  unfold serveStep1
  split
  · next hc =>
    obtain ⟨hdf, hpf, hall⟩ := hc
    have hrec := sendRecord_records s ⟨-1, 0, 0, 0⟩ (encodeHeader (-1) 0 0 0) true
    have hfil := sendRecord_files s ⟨-1, 0, 0, 0⟩ (encodeHeader (-1) 0 0 0) true
    have hprf := sendRecord_prefetches s ⟨-1, 0, 0, 0⟩ (encodeHeader (-1) 0 0 0) true
    refine ⟨⟨?_, ?_, ?_⟩, ?_, ?_, ?_⟩
    · show countSentinel (SendDone s).records = _
      unfold SendDone
      rw [hrec]
      unfold countSentinel
      rw [List.countP_append]
      have h0 : countSentinel s.records = 0 := by rw [h.1, hdf]; rfl
      unfold countSentinel at h0
      simp only [h0]
      rfl
    · show ∀ r ∈ (SendDone s).records, _
      unfold SendDone
      rw [hrec]
      intro r hrm hneg
      rcases List.mem_append.mp hrm with hm | hm
      · exact h.2.1 r hm hneg
      · simp only [List.mem_singleton] at hm
        subst hm
        exact ⟨rfl, rfl⟩
    · show InvCnt _
      intro f hf
      have : ({ SendDone s with doneSent := true }).files = s.files := by
        show (SendDone s).files = s.files
        unfold SendDone
        exact hfil
      rw [this] at hf
      exact h.2.2 f hf
    · simp only [true_iff]
      exact Or.inr ⟨hall, hpf⟩
    · show (SendDone s).prefetches = s.prefetches
      unfold SendDone
      exact hprf
    · show (SendDone s).files = s.files
      unfold SendDone
      exact hfil
  · next hc =>
    refine ⟨h, ?_, rfl, rfl⟩
    constructor
    · exact Or.inl
    · rintro (hd | hcond)
      · exact hd
      · cases hdd : s.doneSent with
        | true => rfl
        | false => exact absurd ⟨hdd, hcond.2, hcond.1⟩ hc

theorem servePre_core (s : ServerState) :
    (servePre s).1.records = (serveStep1 s).records ∧
    (servePre s).1.doneSent = (serveStep1 s).doneSent ∧
    (servePre s).1.files = (serveStep1 s).files ∧
    (servePre s).1.prefetches = (serveStep1 s).prefetches := by
  unfold servePre
  dsimp only
  split
  · exact ⟨(Flush_core _).2.2.1, (Flush_core _).2.2.2.1, (Flush_core _).1,
      (Flush_core _).2.1⟩
  · exact ⟨rfl, rfl, rfl, rfl⟩

theorem sentinel_iff_one (s x : ServerState)
    (hiff : (serveStep1 s).doneSent = true ↔ (s.doneSent = true ∨ condC s))
    (hcs : countSentinel x.records = (if (serveStep1 s).doneSent then 1 else 0)) :
    (0 < countSentinel x.records ↔ (s.doneSent = true ∨ ∃ t ∈ [s], condC t)) := by
  rw [hcs]
  have hex : (∃ t ∈ [s], condC t) ↔ condC s := by simp
  rw [hex]
  cases hdd : (serveStep1 s).doneSent with
  | false =>
    rw [hdd] at hiff
    simp only [Bool.false_eq_true, false_iff] at hiff
    simpa using hiff
  | true =>
    rw [hdd] at hiff
    simp only [true_iff] at hiff
    simpa using hiff

theorem MetaInv_init (sc0 : Bool) (contents : List (List Nat)) :
    MetaInv (initState sc0 contents) := by
  refine ⟨rfl, ?_, ?_⟩
  · intro r hr
    simp only [initState] at hr
    exact absurd hr (List.not_mem_nil r)
  · intro f hf
    simp only [initState] at hf
    rcases List.mem_map.mp hf with ⟨c, -, rfl⟩
    simp [mkFile, List.count_replicate]

/-- The combined loop invariant of a modeled Serve run: every executed
    loop-top state and the final state satisfy MetaInv, and the sentinel is
    in the final record history iff the run started with doneSent or some
    executed loop-top state satisfied the completion condition. -/
theorem serveRun_master (lz4 : List Nat → List Nat) (fuel : Nat) :
    ∀ (s : ServerState) (evs : List NetEv), MetaInv s →
      (∀ t ∈ (serveRun lz4 fuel s evs).1, MetaInv t) ∧
      MetaInv (serveRun lz4 fuel s evs).2.1 ∧
      (0 < countSentinel (serveRun lz4 fuel s evs).2.1.records ↔
        (s.doneSent = true ∨ ∃ t ∈ (serveRun lz4 fuel s evs).1, condC t)) := by
  induction fuel with
  | zero =>
    intro s evs h
    refine ⟨?_, ?_, ?_⟩
    · intro t ht
      simp only [serveRun, List.not_mem_nil] at ht
    · simpa only [serveRun] using h
    · simp only [serveRun]
      rw [h.1]
      cases hd : s.doneSent <;> simp
  | succ fuel ih =>
    intro s evs h
    have hstep := serveStep1_spec s h
    have hpre := servePre_core s
    have hrc := ReadRequest_core (servePre s).1 (servePre s).2 evs
    have hM1 : MetaInv (servePre s).1 :=
      MetaInv_of_core hpre.1 hpre.2.1 hpre.2.2.1 hstep.1
    cases hrr : ReadRequest (servePre s).1 (servePre s).2 evs with
    | noEvents s3 evs' =>
      rw [hrr] at hrc
      have h3 : s3.records = (servePre s).1.records ∧
          s3.doneSent = (servePre s).1.doneSent ∧
          s3.files = (servePre s).1.files ∧
          s3.prefetches = (servePre s).1.prefetches := hrc
      have hM3 : MetaInv s3 := MetaInv_of_core h3.1 h3.2.1 h3.2.2.1 hM1
      have hcs : countSentinel s3.records = (if (serveStep1 s).doneSent then 1 else 0) := by
        rw [h3.1, hpre.1]
        exact hstep.1.1
      simp only [serveRun, hrr]
      refine ⟨?_, hM3, sentinel_iff_one s s3 hstep.2.1 hcs⟩
      intro t ht
      simp only [List.mem_singleton] at ht
      subst ht
      exact h
    | got req s3 evs' =>
      rw [hrr] at hrc
      have h3 : s3.records = (servePre s).1.records ∧
          s3.doneSent = (servePre s).1.doneSent ∧
          s3.files = (servePre s).1.files ∧
          s3.prefetches = (servePre s).1.prefetches := hrc
      have hM3 : MetaInv s3 := MetaInv_of_core h3.1 h3.2.1 h3.2.2.1 hM1
      have hcs3 : countSentinel s3.records = (if (serveStep1 s).doneSent then 1 else 0) := by
        rw [h3.1, hpre.1]
        exact hstep.1.1
      have hds3 : s3.doneSent = (serveStep1 s).doneSent := h3.2.1.trans hpre.2.1
      cases hd : dispatch lz4 s3 req with
      | none =>
        simp only [serveRun, hrr, hd]
        refine ⟨?_, hM3, sentinel_iff_one s s3 hstep.2.1 hcs3⟩
        intro t ht
        simp only [List.mem_singleton] at ht
        subst ht
        exact h
      | some out =>
        cases out with
        | halt ok s4 =>
          have hEd : Eff s3 s4 := dispatch_Eff lz4 s3 req (.halt ok s4) hd
          have hM4 : MetaInv s4 := Eff_MetaInv hEd hM3
          have hcs4 : countSentinel s4.records =
              (if (serveStep1 s).doneSent then 1 else 0) := by
            rw [Eff_countSentinel hEd]
            exact hcs3
          simp only [serveRun, hrr, hd]
          refine ⟨?_, hM4, sentinel_iff_one s s4 hstep.2.1 hcs4⟩
          intro t ht
          simp only [List.mem_singleton] at ht
          subst ht
          exact h
        | next s4 =>
          have hEd : Eff s3 s4 := dispatch_Eff lz4 s3 req (.next s4) hd
          cases hrp : RunPrefetching lz4 s4 with
          | none =>
            have hM4 : MetaInv s4 := Eff_MetaInv hEd hM3
            have hcs4 : countSentinel s4.records =
                (if (serveStep1 s).doneSent then 1 else 0) := by
              rw [Eff_countSentinel hEd]
              exact hcs3
            simp only [serveRun, hrr, hd, hrp]
            refine ⟨?_, hM4, sentinel_iff_one s s4 hstep.2.1 hcs4⟩
            intro t ht
            simp only [List.mem_singleton] at ht
            subst ht
            exact h
          | some s5 =>
            have hE35 : Eff s3 s5 := Eff_trans hEd (RunPrefetching_Eff lz4 s4 s5 hrp)
            have hM5 : MetaInv s5 := Eff_MetaInv hE35 hM3
            have hd5 : s5.doneSent = (serveStep1 s).doneSent := hE35.2.1.trans hds3
            obtain ⟨htr', hfin', hiff'⟩ := ih s5 evs' hM5
            simp only [serveRun, hrr, hd, hrp]
            refine ⟨?_, hfin', ?_⟩
            · intro t ht
              rcases List.mem_cons.mp ht with rfl | ht'
              · exact h
              · exact htr' t ht'
            · rw [hiff', hd5, hstep.2.1, List.exists_mem_cons_iff]
              exact or_assoc

/-- Claim C3: at every externally observable moment of the session - the
    loop-top state of each executed Serve iteration and the final state of
    the run - every file's cached sentBlocksCount equals the number of true
    bits in its sent bitmap. -/
theorem c3_sent_count_invariant (lz4 : List Nat → List Nat) (sc0 : Bool)
    (contents : List (List Nat)) (fuel : Nat) (evs : List NetEv) :
    (∀ t ∈ (serveRun lz4 fuel (initState sc0 contents) evs).1, InvCnt t) ∧
    InvCnt (serveRun lz4 fuel (initState sc0 contents) evs).2.1 := by
  have h := serveRun_master lz4 fuel (initState sc0 contents) evs (MetaInv_init sc0 contents)
  exact ⟨fun t ht => (h.1 t ht).2.2, h.2.1.2.2⟩

/-- Claim C2: in a session started from the initial server state, the
    end-of-stream sentinel record (file_id = -1; such records carry
    block_size = 0) is emitted iff at some executed loop-top moment every
    file was fully sent (sentBlocksCount equal to the bitmap size) while the
    prefetch queue was empty, and it is emitted at most once per session. -/
theorem c2_sentinel_iff_complete (lz4 : List Nat → List Nat) (sc0 : Bool)
    (contents : List (List Nat)) (fuel : Nat) (evs : List NetEv) :
    (0 < countSentinel (serveRun lz4 fuel (initState sc0 contents) evs).2.1.records ↔
      ∃ t ∈ (serveRun lz4 fuel (initState sc0 contents) evs).1,
        allSent t ∧ t.prefetches = []) ∧
    countSentinel (serveRun lz4 fuel (initState sc0 contents) evs).2.1.records ≤ 1 ∧
    (∀ r ∈ (serveRun lz4 fuel (initState sc0 contents) evs).2.1.records,
      r.fileId = -1 → r.blockSize = 0 ∧ r.compression = 0) := by
  have h := serveRun_master lz4 fuel (initState sc0 contents) evs (MetaInv_init sc0 contents)
  refine ⟨?_, ?_, h.2.1.2.1⟩
  · rw [h.2.2]
    have hds : (initState sc0 contents).doneSent = false := rfl
    rw [hds]
    simp only [Bool.false_eq_true, false_or]
    unfold condC
    exact Iff.rfl
  · rw [h.2.1.1]
    split <;> omega

end Incremental
